import Mathlib

/-!
Verification of the ArthAI-GGI (FinPredict) prediction pipeline against its
specification.

The development shallowly embeds the relevant source code:

* `src/frontend/src/utils/cache.ts` — the localStorage cache helpers;
* `src/frontend/src/utils/indicators.ts` — `calculateRSI`;
* `ml/src/sequence_generator.py` (from `src/docs/ML/ML_LSTM_TRAINING_GUIDE.md`)
  — MinMax scaling, sequence construction, multi-horizon targets, and the
  chronological train/validation/test split;
* `ml/src/feature_engineering.py` (from the ML development guide in
  `src/unnamed/part_010`) — the 41-column technical-indicator feature table
  and its NaN-dropping postprocessing.

Numeric conventions.  JavaScript / NumPy floating point is embedded as exact
rational arithmetic over `ℚ`.  An IEEE NaN is embedded as `Option.none`; a
zero denominator is conservatively mapped to `none` as well (NumPy produces
`inf` or NaN there, TA-Lib variously guards it; every theorem below either
assumes all denominators are nonzero or exercises only the genuine `0/0`
case, where both the source and the embedding agree on an undefined value).
The square root used by the Bollinger-band and volatility features is
irrational in general, so it is taken as an explicit function parameter;
all theorems hold for every choice of that parameter, and witnesses
instantiate it with a concrete computable function.
-/

namespace FrontendCache

/-- A JavaScript value as returned by `JSON.parse`: the distinguished `null`
value (which TypeScript conflates with the cache-miss result), or some other
value, abstracted as an indexed payload. -/
inductive JsVal : Type where
  | jsNull : JsVal
  | val : Nat → JsVal
deriving DecidableEq, Repr

/-- The browser environment seen by `loadFromCache`: whether `window` is
defined, and the behaviour of `window.localStorage.getItem` (`Except.error`
models a thrown storage exception, `Except.ok none` a missing key). -/
structure BrowserEnv : Type where
  hasWindow : Bool
  getItem : String → Except Unit (Option String)

/-- Shallow embedding of `loadFromCache` from
`src/frontend/src/utils/cache.ts`.  `parse` embeds `JSON.parse`
(`Except.error` models a thrown `SyntaxError`).  The source returns `null`
when `window` is undefined, wraps the storage read and the parse in a
`try`/`catch` returning `null`, and evaluates `item ? JSON.parse(item) : null`,
where both `null` and the empty string are falsy. -/
def loadFromCache (env : BrowserEnv) (parse : String → Except Unit JsVal)
    (key : String) : JsVal :=
  if env.hasWindow = false then .jsNull
  else
    match env.getItem key with
    | .error _ => .jsNull
    | .ok none => .jsNull
    | .ok (some item) =>
      if item = "" then .jsNull
      else
        match parse item with
        | .error _ => .jsNull
        | .ok v => v

/-- The behaviour claimed by the spec for `loadFromCache`: `null` when
storage is unavailable or fails, when no value is stored under the key, or
when the stored string is not valid JSON; otherwise the parsed stored
value. -/
def loadFromCacheClaimed (env : BrowserEnv) (parse : String → Except Unit JsVal)
    (key : String) : JsVal :=
  if env.hasWindow = false then .jsNull
  else
    match env.getItem key with
    | .error _ => .jsNull
    | .ok none => .jsNull
    | .ok (some item) =>
      match parse item with
      | .error _ => .jsNull
      | .ok v => v

end FrontendCache

namespace Indicators

/-- Consecutive differences of a chronological price list:
`changes xs = [xs 1 − xs 0, xs 2 − xs 1, …]`, mirroring
`data[i] - data[i - 1]` in `calculateRSI`. -/
def changes (data : List ℚ) : List ℚ :=
  List.zipWith (fun a b => b - a) data (data.drop 1)

/-- The Wilder-smoothed `(avgGain, avgLoss)` pair computed by
`calculateRSI` in `src/frontend/src/utils/indicators.ts`: the input is
newest-first and is reversed; the first `period` changes are averaged, and
the remaining changes are folded with Wilder smoothing.  In the seeding loop
a zero change contributes to the loss sum (`else` branch); in the smoothing
loop, gain and loss are each zero for a zero change. -/
def wilderAvgs (prices : List ℚ) (period : ℕ) : ℚ × ℚ :=
  let data := prices.reverse
  let cs := changes data
  let g0 := (((cs.take period).map (fun c => if 0 < c then c else 0)).sum) / period
  let l0 := (((cs.take period).map (fun c => if 0 < c then 0 else -c)).sum) / period
  (cs.drop period).foldl
    (fun gl c =>
      ((gl.1 * ((period : ℚ) - 1) + (if 0 < c then c else 0)) / period,
       (gl.2 * ((period : ℚ) - 1) + (if c < 0 then -c else 0)) / period))
    (g0, l0)

/-- Shallow embedding of `calculateRSI` (prices newest-first, standard
period 14 at call sites): `none` for fewer than `period + 1` prices,
`100` when the smoothed average loss is zero, and otherwise
`100 − 100 / (1 + rs)` with `rs = avgGain / avgLoss`. -/
def calculateRSI (prices : List ℚ) (period : ℕ) : Option ℚ :=
  if prices.length < period + 1 then none
  else
    let gl := wilderAvgs prices period
    if gl.2 = 0 then some 100
    else some (100 - 100 / (1 + gl.1 / gl.2))

end Indicators

set_option maxRecDepth 40000

namespace Indicators

/-- The Wilder fold of `calculateRSI` keeps both running averages
nonnegative: the seeds are averages of nonnegative gain/loss contributions,
and each smoothing step mixes a nonnegative multiple of the previous average
with a nonnegative increment. -/
theorem wilderAvgs_nonneg (prices : List ℚ) (period : ℕ) (hp : 1 ≤ period) :
    0 ≤ (wilderAvgs prices period).1 ∧ 0 ≤ (wilderAvgs prices period).2 := by
  have hper : (0 : ℚ) ≤ (period : ℚ) := by positivity
  have hper1 : (0 : ℚ) ≤ (period : ℚ) - 1 := by
    have : (1 : ℚ) ≤ (period : ℚ) := by exact_mod_cast hp
    linarith
  unfold wilderAvgs
  set cs := changes prices.reverse with hcs
  have hstep :
      ∀ (rest : List ℚ) (gl : ℚ × ℚ), 0 ≤ gl.1 → 0 ≤ gl.2 →
        0 ≤ (rest.foldl
            (fun gl c =>
              ((gl.1 * ((period : ℚ) - 1) + (if 0 < c then c else 0)) / period,
               (gl.2 * ((period : ℚ) - 1) + (if c < 0 then -c else 0)) / period))
            gl).1 ∧
        0 ≤ (rest.foldl
            (fun gl c =>
              ((gl.1 * ((period : ℚ) - 1) + (if 0 < c then c else 0)) / period,
               (gl.2 * ((period : ℚ) - 1) + (if c < 0 then -c else 0)) / period))
            gl).2 := by
    intro rest
    induction rest with
    | nil => intro gl h1 h2; exact ⟨h1, h2⟩
    | cons c rest ih =>
      intro gl h1 h2
      simp only [List.foldl_cons]
      apply ih
      · apply div_nonneg _ hper
        have hc : (0 : ℚ) ≤ if 0 < c then c else 0 := by
          split <;> [linarith; rfl]
        nlinarith
      · apply div_nonneg _ hper
        have hc : (0 : ℚ) ≤ if c < 0 then -c else 0 := by
          split <;> [linarith; rfl]
        nlinarith
  apply hstep
  · apply div_nonneg _ hper
    apply List.sum_nonneg
    intro x hx
    obtain ⟨c, _, rfl⟩ := List.mem_map.mp hx
    split <;> [linarith; rfl]
  · apply div_nonneg _ hper
    apply List.sum_nonneg
    intro x hx
    obtain ⟨c, _, rfl⟩ := List.mem_map.mp hx
    split <;> [rfl; linarith]

/-- C9: for at least `period + 1` prices, `calculateRSI` returns a value in
the closed interval `[0, 100]`; it returns exactly `100` when the smoothed
average loss is zero, and `none` (the source's `null`) for any shorter
input.  The hypothesis `1 ≤ period` reflects the function's intended use
(the source defaults `period` to 14). -/
theorem calculateRSI_range (prices : List ℚ) (period : ℕ) (hp : 1 ≤ period) :
    (period + 1 ≤ prices.length →
      ∃ r, calculateRSI prices period = some r ∧ 0 ≤ r ∧ r ≤ 100) ∧
    (period + 1 ≤ prices.length → (wilderAvgs prices period).2 = 0 →
      calculateRSI prices period = some 100) ∧
    (prices.length < period + 1 → calculateRSI prices period = none) := by
  obtain ⟨hg, hl⟩ := wilderAvgs_nonneg prices period hp
  refine ⟨?_, ?_, ?_⟩
  · intro hlen
    have hnot : ¬ prices.length < period + 1 := by omega
    by_cases hz : (wilderAvgs prices period).2 = 0
    · refine ⟨100, ?_, by norm_num, by norm_num⟩
      unfold calculateRSI
      simp [hnot, hz]
    · have hlpos : 0 < (wilderAvgs prices period).2 := lt_of_le_of_ne hl (Ne.symm hz)
      have hrs : 0 ≤ (wilderAvgs prices period).1 / (wilderAvgs prices period).2 :=
        div_nonneg hg hl
      have hpos : (0 : ℚ) < 1 + (wilderAvgs prices period).1 / (wilderAvgs prices period).2 := by
        linarith
      refine ⟨100 - 100 / (1 + (wilderAvgs prices period).1 / (wilderAvgs prices period).2),
        ?_, ?_, ?_⟩
      · unfold calculateRSI
        simp [hnot, hz]
      · have hb : 100 / (1 + (wilderAvgs prices period).1 / (wilderAvgs prices period).2) ≤ 100 := by
          rw [div_le_iff₀ hpos]
          nlinarith
        linarith
      · have hc : 0 < 100 / (1 + (wilderAvgs prices period).1 / (wilderAvgs prices period).2) :=
          div_pos (by norm_num) hpos
        linarith
  · intro hlen hz
    have hnot : ¬ prices.length < period + 1 := by omega
    unfold calculateRSI
    simp [hnot, hz]
  · intro hlen
    unfold calculateRSI
    simp [hlen]

/-- Witness for C9 at a concrete input: four newest-first prices with
period 3. -/
theorem calculateRSI_range_witness :
    ∃ r, calculateRSI [(3 : ℚ), 2, 4, 1] 3 = some r ∧ 0 ≤ r ∧ r ≤ 100 :=
  (calculateRSI_range [(3 : ℚ), 2, 4, 1] 3 (by decide)).1 (by decide)

end Indicators

namespace FrontendCache

/-- C10: `loadFromCache` is total (it returns a plain value for every
environment, key, and parser — every exception of the source is caught by
the `try`/`catch` and surfaces as `null`) and coincides with the claimed
behaviour: `null` when storage is unavailable or throws, when no value is
stored under the key, or when the stored string is not valid JSON, and
otherwise the parsed stored value.  The hypothesis records the one fact
needed about `JSON.parse`: the empty string — falsy in the source's
`item ? JSON.parse(item) : null` — is not valid JSON. -/
theorem loadFromCache_spec (env : BrowserEnv) (parse : String → Except Unit JsVal)
    (key : String) (hparse : parse "" = .error ()) :
    loadFromCache env parse key = loadFromCacheClaimed env parse key := by
  unfold loadFromCache loadFromCacheClaimed
  by_cases hw : env.hasWindow = false
  · simp [hw]
  · simp only [hw, if_false]
    cases hres : env.getItem key with
    | error e => rfl
    | ok item =>
      cases item with
      | none => rfl
      | some s =>
        by_cases hs : s = ""
        · subst hs
          simp [hparse]
        · simp [hs]

/-- Witness for C10 at a concrete environment, parser, and key. -/
theorem loadFromCache_spec_witness :
    loadFromCache ⟨true, fun _ => .ok (some "a")⟩
        (fun s => if s = "a" then .ok (.val 3) else .error ()) "k" =
      loadFromCacheClaimed ⟨true, fun _ => .ok (some "a")⟩
        (fun s => if s = "a" then .ok (.val 3) else .error ()) "k" :=
  loadFromCache_spec ⟨true, fun _ => .ok (some "a")⟩
    (fun s => if s = "a" then .ok (.val 3) else .error ()) "k" (by rfl)

end FrontendCache

namespace Hybrid

/-- Modelled from the spec: the Hybrid Combiner's confidence scoring lives
in `ml/src/hybrid_model.py`, which is not under `src/` — the repository
documents it only as "Confidence = model agreement score (0.30 - 0.95)"
(`src/unnamed/part_009`), and spec §4.5 leaves the exact mapping an
implementation choice constrained to be monotone in relative disagreement
and to saturate at both bounds.  The relative disagreement between the
temporal (LSTM) and tree-ensemble (XGBoost) predictions is the absolute
difference normalised by the larger magnitude. -/
def relDisagreement (temporalPred treePred : ℚ) : ℚ :=
  |temporalPred - treePred| / max |temporalPred| |treePred|

/-- Modelled from the spec: a disagreement-to-confidence mapping satisfying
§4.5 — affine and decreasing in the disagreement, clamped into
`[0.30, 0.95]` (written `[3/10, 19/20]`). -/
def confidenceOfDisagreement (d : ℚ) : ℚ :=
  min (19/20) (max (3/10) (19/20 - 2 * d))

/-- Modelled from the spec: the confidence reported for a pair of
per-horizon predictions. -/
def confidence (temporalPred treePred : ℚ) : ℚ :=
  confidenceOfDisagreement (relDisagreement temporalPred treePred)

/-- C4: every confidence score lies in `[0.30, 0.95]`; the mapping from
relative disagreement to confidence is antitone (a larger disagreement
never yields a higher confidence) and saturates at both bounds: zero
disagreement gives exactly `0.95`, and any disagreement of at least
`13/40` gives exactly `0.30`.  The bounds hold for every pair of model
predictions. -/
theorem confidence_bounds (d e temporalPred treePred : ℚ) (hd : 0 ≤ d) :
    (3/10 ≤ confidenceOfDisagreement d ∧ confidenceOfDisagreement d ≤ 19/20) ∧
    (d ≤ e → confidenceOfDisagreement e ≤ confidenceOfDisagreement d) ∧
    confidenceOfDisagreement 0 = 19/20 ∧
    (13/40 ≤ d → confidenceOfDisagreement d = 3/10) ∧
    (3/10 ≤ confidence temporalPred treePred ∧
      confidence temporalPred treePred ≤ 19/20) := by
  have hb : ∀ x : ℚ, 3/10 ≤ confidenceOfDisagreement x ∧
      confidenceOfDisagreement x ≤ 19/20 := by
    intro x
    unfold confidenceOfDisagreement
    constructor
    · apply le_min
      · norm_num
      · exact le_max_left _ _
    · exact min_le_left _ _
  refine ⟨hb d, ?_, ?_, ?_, hb _⟩
  · intro hde
    unfold confidenceOfDisagreement
    apply min_le_min le_rfl
    apply max_le_max le_rfl
    linarith
  · unfold confidenceOfDisagreement
    norm_num
  · intro hsat
    unfold confidenceOfDisagreement
    have h1 : 19/20 - 2 * d ≤ 3/10 := by linarith
    rw [max_eq_left h1]
    norm_num

/-- Witness for C4 at concrete disagreements and predictions. -/
theorem confidence_bounds_witness :
    (3/10 ≤ confidenceOfDisagreement (1/10) ∧
      confidenceOfDisagreement (1/10) ≤ 19/20) ∧
    ((1/10 : ℚ) ≤ 1/2 → confidenceOfDisagreement (1/2) ≤
      confidenceOfDisagreement (1/10)) ∧
    confidenceOfDisagreement 0 = 19/20 ∧
    ((13/40 : ℚ) ≤ 1/10 → confidenceOfDisagreement (1/10) = 3/10) ∧
    (3/10 ≤ confidence 100 104 ∧ confidence 100 104 ≤ 19/20) :=
  confidence_bounds (1/10) (1/2) 100 104 (by norm_num)

end Hybrid

namespace InferenceCache

/-- Modelled from the spec: the served `PredictionBundle`
`{symbol, horizon, price, change_percent, confidence, computed_at}`
(spec §3); the backend Redis cache that holds it (checklist item
"Cache result in Redis (15min TTL)", `src/unnamed/part_008`) is not under
`src/`.  The symbol is abstracted as an identifier, `computed_at` as a
timestamp in seconds. -/
structure PredictionBundle : Type where
  symbol : ℕ
  horizon : ℕ
  price : ℚ
  changePercent : ℚ
  confidence : ℚ
  computedAt : ℕ
deriving DecidableEq, Repr

/-- Modelled from the spec: the cache TTL of roughly 15 minutes, in
seconds. -/
def ttl : ℕ := 900

/-- Modelled from the spec: the cache-aside read for one `(symbol, horizon)`
key.  The cache slot holds the stored bundle together with the time it was
written; a read at `now` serves the entry when it is still live
(`now < storedAt + ttl`) and otherwise recomputes and repopulates the slot.
Returns the served bundle and the new slot state. -/
def readCache (recompute : ℕ → PredictionBundle)
    (slot : Option (PredictionBundle × ℕ)) (now : ℕ) :
    PredictionBundle × (PredictionBundle × ℕ) :=
  match slot with
  | some (b, storedAt) =>
    if now < storedAt + ttl then (b, (b, storedAt))
    else ((recompute now), ((recompute now), now))
  | none => ((recompute now), ((recompute now), now))

/-- C8: a read within the TTL returns the stored bundle exactly as stored
(and leaves the slot unchanged); once the TTL has expired the next read
recomputes instead of serving the stale entry, observable through a
`computed_at` that differs from the stored bundle's.  `recompute` stamps
the bundle with the current time, and a stored bundle was stamped no later
than it was stored. -/
theorem readCache_ttl (recompute : ℕ → PredictionBundle)
    (b : PredictionBundle) (storedAt now : ℕ)
    (hstamp : ∀ t, (recompute t).computedAt = t)
    (hstored : b.computedAt ≤ storedAt) :
    (now < storedAt + ttl →
      readCache recompute (some (b, storedAt)) now = (b, (b, storedAt))) ∧
    (storedAt + ttl ≤ now →
      (readCache recompute (some (b, storedAt)) now).1 = recompute now ∧
      (readCache recompute (some (b, storedAt)) now).1.computedAt = now ∧
      (readCache recompute (some (b, storedAt)) now).1.computedAt ≠ b.computedAt) := by
  constructor
  · intro hfresh
    simp [readCache, hfresh]
  · intro hexp
    have hnot : ¬ now < storedAt + ttl := by omega
    have ht : 0 < ttl := by norm_num [ttl]
    refine ⟨?_, ?_, ?_⟩ <;> simp [readCache, hnot, hstamp now] <;> omega

/-- Witness for C8 at a concrete recompute function, bundle, and times. -/
theorem readCache_ttl_witness :
    ((100 : ℕ) < 50 + ttl →
      readCache (fun t => ⟨1, 1, 5, 0, 1/2, t⟩)
        (some (⟨1, 1, 5, 0, 1/2, 40⟩, 50)) 100 =
        (⟨1, 1, 5, 0, 1/2, 40⟩, (⟨1, 1, 5, 0, 1/2, 40⟩, 50))) ∧
    (50 + ttl ≤ (100 : ℕ) →
      (readCache (fun t => ⟨1, 1, 5, 0, 1/2, t⟩)
        (some (⟨1, 1, 5, 0, 1/2, 40⟩, 50)) 100).1 =
        (fun t => (⟨1, 1, 5, 0, 1/2, t⟩ : PredictionBundle)) 100 ∧
      (readCache (fun t => ⟨1, 1, 5, 0, 1/2, t⟩)
        (some (⟨1, 1, 5, 0, 1/2, 40⟩, 50)) 100).1.computedAt = 100 ∧
      (readCache (fun t => ⟨1, 1, 5, 0, 1/2, t⟩)
        (some (⟨1, 1, 5, 0, 1/2, 40⟩, 50)) 100).1.computedAt ≠
        (⟨1, 1, 5, 0, 1/2, 40⟩ : PredictionBundle).computedAt) :=
  readCache_ttl (fun t => ⟨1, 1, 5, 0, 1/2, t⟩) ⟨1, 1, 5, 0, 1/2, 40⟩ 50 100
    (fun _ => rfl) (by norm_num)

end InferenceCache

namespace SeqGen

/-- A feature table: a list of rows, each row a list of rational column
entries (the pandas DataFrame handed to `SequenceGenerator`, which by
construction — the output of `FeatureEngineer.add_all_features` — contains
no NaN). -/
abbrev Table : Type := List (List ℚ)

/-- The values of column `j` down a table, mirroring how
`MinMaxScaler.fit` inspects one DataFrame column. -/
def colVals (rows : Table) (j : ℕ) : List ℚ :=
  rows.filterMap (fun r => r.get? j)

/-- Shallow embedding of `MinMaxScaler.fit` (feature range `(0, 1)`): the
per-column data minimum and maximum over every row of the table passed to
`fit_transform` — the source calls `self.scaler.fit_transform(df)` on the
whole DataFrame, before any train/validation/test split. -/
def fitBounds (rows : Table) (width : ℕ) : List (ℚ × ℚ) :=
  (List.range width).map (fun j =>
    (((colVals rows j).min?).getD 0, ((colVals rows j).max?).getD 0))

/-- One column's MinMax transform `(x − min) / (max − min)`; scikit-learn
replaces a zero range by 1 (`_handle_zeros_in_scale`). -/
def scaleVal (b : ℚ × ℚ) (x : ℚ) : ℚ :=
  (x - b.1) / (if b.2 - b.1 = 0 then 1 else b.2 - b.1)

/-- A row scaled column-by-column with the fitted bounds. -/
def scaleRow (bs : List (ℚ × ℚ)) (r : List ℚ) : List ℚ :=
  List.zipWith scaleVal bs r

/-- Shallow embedding of `SequenceGenerator.prepare_data` for a table whose
rows have `width` columns and whose target column sits at index `tIdx`: fit
the scaler on the whole table, scale every row, and emit, for each anchor
`i` from `L` (`sequence_length`) to `len − 1`, the pair of the scaled rows
`[i − L, i)` (`X.append(scaled_data[i - self.sequence_length:i])`) and the
scaled target entry of row `i` (`y.append(scaled_data[i, target_idx])`). -/
def prepareData (L tIdx width : ℕ) (rows : Table) : List (Table × ℚ) :=
  let scaled : Table := rows.map (scaleRow (fitBounds rows width))
  (List.range (rows.length - L)).map (fun k =>
    (((scaled.drop k).take L : List (List ℚ)),
     ((scaled.getD (k + L) []).getD tIdx 0)))

/-- Shallow embedding of `df_shifted['target'] = df_shifted['close'].shift(-horizon)`:
each row is paired with the close entry `H` rows later, or `none` (NaN) when
there is no such row. -/
def shiftTarget (H closeIdx : ℕ) (rows : Table) : List (List ℚ × Option ℚ) :=
  (List.range rows.length).map (fun i =>
    (rows.getD i [], (rows[i + H]?).map (fun r => r.getD closeIdx 0)))

/-- Shallow embedding of the subsequent `df_shifted.dropna()`: rows whose
shifted target is NaN are removed (the feature columns themselves are
NaN-free at this point), and the target becomes an ordinary trailing
column. -/
def dropNaTarget (xs : List (List ℚ × Option ℚ)) : Table :=
  xs.filterMap (fun p => p.2.map (fun t => p.1 ++ [t]))

/-- Shallow embedding of `SequenceGenerator.create_multi_horizon_targets`
for one horizon `H`: shift the close column, drop the NaN tail, and run
`prepare_data` with `target_column='target'` — the appended column at index
`width`, with the scaler fitted on all `width + 1` columns. -/
def createTargets (H L closeIdx width : ℕ) (rows : Table) : List (Table × ℚ) :=
  prepareData L width (width + 1) (dropNaTarget (shiftTarget H closeIdx rows))

/-- Shallow embedding of `SequenceGenerator.split_data` with the source's
`train_ratio=0.7`, `val_ratio=0.15`: `train_end = int(n * 0.7)` and
`val_end = int(n * 0.85)` are embedded as the exact rational floors
`⌊7n/10⌋` and `⌊17n/20⌋`, and the three slices are
`X[:train_end]`, `X[train_end:val_end]`, `X[val_end:]`. -/
def splitData {α : Type} (xs : List α) : List α × List α × List α :=
  let n := xs.length
  let trainEnd := 7 * n / 10
  let valEnd := 17 * n / 20
  (xs.take trainEnd, (xs.take valEnd).drop trainEnd, xs.drop valEnd)

/-- C5: the train/validation/test split is chronological and never
randomised: concatenating the three parts in order restores the sample list
exactly (so the parts are disjoint index ranges that jointly cover all `n`
samples), the training part is precisely the earliest contiguous
`⌊0.70 n⌋` samples, validation the next `⌊0.85 n⌋ − ⌊0.70 n⌋`, and test the
final `n − ⌊0.85 n⌋`; each part reads the original samples at the
corresponding shifted indices. -/
theorem splitData_chronological {α : Type} (xs : List α) :
    (splitData xs).1 ++ (splitData xs).2.1 ++ (splitData xs).2.2 = xs ∧
    (splitData xs).1.length = 7 * xs.length / 10 ∧
    (splitData xs).2.1.length = 17 * xs.length / 20 - 7 * xs.length / 10 ∧
    (splitData xs).2.2.length = xs.length - 17 * xs.length / 20 ∧
    (∀ i, i < 7 * xs.length / 10 → (splitData xs).1[i]? = xs[i]?) ∧
    (∀ i, (splitData xs).2.1[i]? = if i < 17 * xs.length / 20 - 7 * xs.length / 10
      then xs[7 * xs.length / 10 + i]? else none) ∧
    (∀ i, (splitData xs).2.2[i]? = xs[17 * xs.length / 20 + i]?) := by
  have h710 : 7 * xs.length / 10 ≤ xs.length := by omega
  have h1720 : 17 * xs.length / 20 ≤ xs.length := by omega
  have hle : 7 * xs.length / 10 ≤ 17 * xs.length / 20 := by omega
  have e1 : (splitData xs).1 = xs.take (7 * xs.length / 10) := rfl
  have e2 : (splitData xs).2.1 =
      (xs.take (17 * xs.length / 20)).drop (7 * xs.length / 10) := rfl
  have e3 : (splitData xs).2.2 = xs.drop (17 * xs.length / 20) := rfl
  rw [e1, e2, e3]
  refine ⟨?_, ?_, ?_, ?_, ?_, ?_, ?_⟩
  · rw [List.drop_take, ← List.take_add, Nat.add_sub_cancel' hle,
      List.take_append_drop]
  · rw [List.length_take, min_eq_left h710]
  · rw [List.length_drop, List.length_take, min_eq_left h1720]
  · rw [List.length_drop]
  · intro i hi
    exact List.getElem?_take_of_lt hi
  · intro i
    rw [List.getElem?_drop]
    by_cases hi : i < 17 * xs.length / 20 - 7 * xs.length / 10
    · rw [if_pos hi]
      exact List.getElem?_take_of_lt (by omega)
    · rw [if_neg hi]
      apply List.getElem?_eq_none
      simp only [List.length_take]
      omega
  · intro i
    rw [List.getElem?_drop]

end SeqGen

namespace SeqGen

/-- A one-column table whose last (test-portion) row differs from
`tableB1` only beyond the earliest 70% of rows. -/
def tableA1 : Table := [[0], [1], [2], [3], [4], [5], [6], [7], [8], [9]]

/-- Companion table for the C1 counterexample: identical to `tableA1` on
the earliest contiguous 70% of rows (rows 0–6), different in the test
portion. -/
def tableB1 : Table := [[0], [1], [2], [3], [4], [5], [6], [7], [8], [20]]

/-- C1 counterexample: the fitted scaler bounds do not depend only on the
earliest contiguous 70% of rows — two tables of ten rows that agree on their
first seven rows (and indeed on everything up to row 8) get different
min/max bounds, because `prepare_data` fits the scaler with
`fit_transform(df)` on the whole table before any split. -/
theorem fitBounds_not_train_only :
    tableA1.take 7 = tableB1.take 7 ∧
    tableA1.length = 10 ∧ tableB1.length = 10 ∧
    fitBounds tableA1 1 ≠ fitBounds tableB1 1 := by
  with_unfolding_all decide

/-- C1 amended: the fitted bounds of every column are the minimum and
maximum of that column over all rows of the table — training, validation
and test rows alike — and the one scaler fitted this way is what scales
every part of the split: scaling the table and then splitting
chronologically agrees with splitting first and scaling each part with the
same fitted bounds. -/
theorem fitBounds_minmax_all_rows (rows : Table) (width j : ℕ) (hj : j < width)
    (hne : colVals rows j ≠ []) :
    ∃ lo hi,
      (fitBounds rows width)[j]? = some (lo, hi) ∧
      (∀ x ∈ colVals rows j, lo ≤ x ∧ x ≤ hi) ∧
      lo ∈ colVals rows j ∧ hi ∈ colVals rows j ∧
      (splitData (rows.map (scaleRow (fitBounds rows width)))).2.1 =
        ((splitData rows).2.1).map (scaleRow (fitBounds rows width)) ∧
      (splitData (rows.map (scaleRow (fitBounds rows width)))).2.2 =
        ((splitData rows).2.2).map (scaleRow (fitBounds rows width)) := by
  obtain ⟨lo, hlo⟩ : ∃ lo, (colVals rows j).min? = some lo := by
    cases h : (colVals rows j).min? with
    | none => exact absurd (List.min?_eq_none_iff.mp h) hne
    | some lo => exact ⟨lo, rfl⟩
  obtain ⟨hi, hhi⟩ : ∃ hi, (colVals rows j).max? = some hi := by
    cases h : (colVals rows j).max? with
    | none => exact absurd (List.max?_eq_none_iff.mp h) hne
    | some hi => exact ⟨hi, rfl⟩
  refine ⟨lo, hi, ?_, ?_, ?_, ?_, ?_, ?_⟩
  · unfold fitBounds
    rw [List.getElem?_map, List.getElem?_range hj]
    simp [hlo, hhi]
  · intro x hx
    constructor
    · exact (List.le_min?_iff (fun _ _ _ => le_min_iff) hlo).mp le_rfl x hx
    · exact (List.max?_le_iff (fun _ _ _ => max_le_iff) hhi).mp le_rfl x hx
  · exact List.min?_mem (fun _ _ => min_choice _ _) hlo
  · exact List.max?_mem (fun _ _ => max_choice _ _) hhi
  · show ((rows.map (scaleRow (fitBounds rows width))).take
        (17 * (rows.map (scaleRow (fitBounds rows width))).length / 20)).drop
        (7 * (rows.map (scaleRow (fitBounds rows width))).length / 10) = _
    rw [List.length_map, ← List.map_take, ← List.map_drop]
    rfl
  · show (rows.map (scaleRow (fitBounds rows width))).drop
        (17 * (rows.map (scaleRow (fitBounds rows width))).length / 20) = _
    rw [List.length_map, ← List.map_drop]
    rfl

/-- Witness for C1's amended theorem at a concrete table. -/
theorem fitBounds_minmax_all_rows_witness :
    ∃ lo hi,
      (fitBounds tableA1 1)[0]? = some (lo, hi) ∧
      (∀ x ∈ colVals tableA1 0, lo ≤ x ∧ x ≤ hi) ∧
      lo ∈ colVals tableA1 0 ∧ hi ∈ colVals tableA1 0 ∧
      (splitData (tableA1.map (scaleRow (fitBounds tableA1 1)))).2.1 =
        ((splitData tableA1).2.1).map (scaleRow (fitBounds tableA1 1)) ∧
      (splitData (tableA1.map (scaleRow (fitBounds tableA1 1)))).2.2 =
        ((splitData tableA1).2.2).map (scaleRow (fitBounds tableA1 1)) :=
  fitBounds_minmax_all_rows tableA1 1 0 (by decide)
    (by with_unfolding_all decide)

end SeqGen

namespace SeqGen

/-- The shifted table entry at a row that still has a target: the row is
paired with the close entry `H` rows later. -/
theorem shiftTarget_getElem_lt (H closeIdx : ℕ) (rows : Table) (i : ℕ)
    (hi : i + H < rows.length) :
    (shiftTarget H closeIdx rows)[i]? =
      some (rows.getD i [], some ((rows.getD (i + H) []).getD closeIdx 0)) := by
  have hi0 : i < rows.length := by omega
  unfold shiftTarget
  simp [List.getElem?_range hi0, List.getElem?_eq_getElem hi,
    List.getD_eq_getElem?_getD]

/-- The shifted table entry at a trailing row has no target (NaN). -/
theorem shiftTarget_getElem_ge (H closeIdx : ℕ) (rows : Table) (i : ℕ)
    (hge : rows.length ≤ i + H) (hi : i < rows.length) :
    (shiftTarget H closeIdx rows)[i]? = some (rows.getD i [], none) := by
  unfold shiftTarget
  simp [List.getElem?_range hi, List.getElem?_eq_none hge]

/-- Dropping the NaN targets from the shifted table keeps exactly the first
`n − H` rows, each extended with the close entry `H` rows later as an
ordinary trailing column. -/
theorem dropNa_shift_eq (H closeIdx : ℕ) (rows : Table) :
    dropNaTarget (shiftTarget H closeIdx rows) =
      (List.range (rows.length - H)).map
        (fun i => rows.getD i [] ++ [(rows.getD (i + H) []).getD closeIdx 0]) := by
  unfold dropNaTarget shiftTarget
  rw [List.filterMap_map]
  rcases Nat.lt_or_ge rows.length H with hH | hH
  · have h0 : rows.length - H = 0 := by omega
    rw [h0]
    simp only [List.range_zero, List.map_nil]
    apply List.filterMap_eq_nil.mpr
    intro i hi
    have hi2 : i < rows.length := List.mem_range.mp hi
    have hnone : rows[i + H]? = none := List.getElem?_eq_none (by omega)
    simp [Function.comp, hnone]
  · have hsplit : rows.length = (rows.length - H) + H := by omega
    conv_lhs => rw [hsplit, List.range_add, List.filterMap_append]
    have htail :
        ((List.range H).map (fun x => rows.length - H + x)).filterMap
          ((fun p : List ℚ × Option ℚ => p.2.map (fun t => p.1 ++ [t])) ∘
            (fun i => (rows.getD i [],
              (rows[i + H]?).map (fun r => r.getD closeIdx 0)))) = [] := by
      apply List.filterMap_eq_nil.mpr
      intro i hi
      obtain ⟨j, hj, rfl⟩ := List.mem_map.mp hi
      have hnone : rows[rows.length - H + j + H]? = none :=
        List.getElem?_eq_none (by omega)
      simp [Function.comp, hnone]
    rw [htail, List.append_nil]
    have hcong :
        ∀ i ∈ List.range (rows.length - H),
          ((fun p : List ℚ × Option ℚ => p.2.map (fun t => p.1 ++ [t])) ∘
            (fun i => (rows.getD i [],
              (rows[i + H]?).map (fun r => r.getD closeIdx 0)))) i =
          (some ∘ (fun i => rows.getD i [] ++
            [(rows.getD (i + H) []).getD closeIdx 0])) i := by
      intro i hi
      have hi2 : i + H < rows.length := by
        have := List.mem_range.mp hi
        omega
      simp [Function.comp, List.getElem?_eq_getElem hi2,
        List.getD_eq_getElem?_getD]
    rw [List.filterMap_congr hcong, List.filterMap_eq_map]

end SeqGen

namespace SeqGen

/-- Length of the `prepare_data` output: one pair per anchor from `L` to
the end of the table. -/
theorem prepareData_length (L tIdx width : ℕ) (rows : Table) :
    (prepareData L tIdx width rows).length = rows.length - L := by
  simp [prepareData]

/-- The pair at position `k` of the `prepare_data` output: the scaled rows
`[k, k + L)` and the scaled target entry of row `k + L`. -/
theorem prepareData_getElem (L tIdx width : ℕ) (rows : Table) (k : ℕ)
    (hk : k < rows.length - L) :
    (prepareData L tIdx width rows)[k]? =
      some ((((rows.map (scaleRow (fitBounds rows width))).drop k).take L),
        (((rows.map (scaleRow (fitBounds rows width))).getD (k + L) []).getD tIdx 0)) := by
  unfold prepareData
  simp [List.getElem?_range hk]

/-- A contiguous window of a list, written with explicit indices. -/
theorem window_eq_map_range {α : Type} (d : α) (xs : List α) (k L : ℕ)
    (h : k + L ≤ xs.length) :
    (xs.drop k).take L = (List.range L).map (fun j => xs.getD (k + j) d) := by
  apply List.ext_getElem?
  intro j
  by_cases hj : j < L
  · have hkj : k + j < xs.length := by omega
    rw [List.getElem?_take_of_lt hj, List.getElem?_drop, List.getElem?_map,
      List.getElem?_range hj]
    rw [List.getElem?_eq_getElem hkj]
    simp [List.getD_eq_getElem?_getD, List.getElem?_eq_getElem hkj]
  · rw [List.getElem?_eq_none, List.getElem?_eq_none]
    · simpa using hj
    · simp only [List.length_take, List.length_drop]
      omega

/-- Scaling a row extended with a trailing target entry and reading back
that entry: the target is scaled with the bounds of its own column. -/
theorem scaleRow_append_getD (B : List (ℚ × ℚ)) (r : List ℚ) (t : ℚ)
    (hB : r.length + 1 ≤ B.length) :
    (scaleRow B (r ++ [t])).getD r.length 0 =
      scaleVal (B.getD r.length (0, 0)) t := by
  unfold scaleRow
  have h1 : B[r.length]? = some B[r.length] :=
    List.getElem?_eq_getElem (by omega)
  have h2 : (r ++ [t])[r.length]? = some t := by
    rw [List.getElem?_append_right (le_refl r.length)]
    simp
  rw [List.getD_eq_getElem?_getD, List.getElem?_zipWith, h1, h2]
  simp [List.getD_eq_getElem?_getD, h1]

/-- Full characterisation of the `create_multi_horizon_targets` pair at
anchor position `k` (for a table of `width`-wide rows): the input window is
the `L` scaled full rows `[k, k + L)` of the shifted table — each carrying,
besides its FeatureRow entries, the appended target column holding the
close `H` rows after it — and the label is the target entry of row
`k + L`, i.e. the close at index `k + L + H` scaled with the target
column's own bounds. -/
theorem createTargets_pair (H L closeIdx width : ℕ) (rows : Table) (k : ℕ)
    (hw : ∀ r ∈ rows, r.length = width)
    (hk : k + L < rows.length - H) :
    (createTargets H L closeIdx width rows)[k]? =
      some (((List.range L).map (fun j =>
          scaleRow (fitBounds (dropNaTarget (shiftTarget H closeIdx rows)) (width + 1))
            (rows.getD (k + j) [] ++ [(rows.getD (k + j + H) []).getD closeIdx 0]))),
        scaleVal ((fitBounds (dropNaTarget (shiftTarget H closeIdx rows)) (width + 1)).getD
            width (0, 0))
          ((rows.getD (k + L + H) []).getD closeIdx 0)) := by
  have hSeq := dropNa_shift_eq H closeIdx rows
  have hSlen : (dropNaTarget (shiftTarget H closeIdx rows)).length = rows.length - H := by
    rw [hSeq]
    simp
  have hSi : ∀ i, i < rows.length - H →
      (dropNaTarget (shiftTarget H closeIdx rows))[i]? =
        some (rows.getD i [] ++ [(rows.getD (i + H) []).getD closeIdx 0]) := by
    intro i hi
    rw [hSeq, List.getElem?_map, List.getElem?_range hi]
    rfl
  have hget : ∀ i, i < rows.length - H →
      ((dropNaTarget (shiftTarget H closeIdx rows)).map
          (scaleRow (fitBounds (dropNaTarget (shiftTarget H closeIdx rows)) (width + 1)))).getD
          i [] =
        scaleRow (fitBounds (dropNaTarget (shiftTarget H closeIdx rows)) (width + 1))
          (rows.getD i [] ++ [(rows.getD (i + H) []).getD closeIdx 0]) := by
    intro i hi
    rw [List.getD_eq_getElem?_getD, List.getElem?_map, hSi i hi]
    rfl
  unfold createTargets
  rw [prepareData_getElem _ _ _ _ _ (by omega)]
  congr 2
  · rw [window_eq_map_range ([] : List ℚ) _ k L
      (by rw [List.length_map, hSlen]; omega)]
    apply List.map_congr_left
    intro j hj
    exact hget (k + j) (by have := List.mem_range.mp hj; omega)
  · rw [hget (k + L) (by omega)]
    have hrlen : (rows.getD (k + L) []).length = width := by
      have hin : k + L < rows.length := by omega
      rw [List.getD_eq_getElem?_getD, List.getElem?_eq_getElem hin]
      exact hw _ (List.getElem_mem hin)
    have hBlen :
        (fitBounds (dropNaTarget (shiftTarget H closeIdx rows)) (width + 1)).length =
          width + 1 := by
      simp [fitBounds]
    rw [← hrlen] at hBlen ⊢
    rw [scaleRow_append_getD _ _ _ (by omega)]

end SeqGen

namespace SeqGen

/-- An eight-row, one-column close table for the C2 counterexample. -/
def tableA2 : Table := [[0], [10], [1], [2], [3], [4], [5], [9]]

/-- Companion table: identical to `tableA2` on rows 0–5 (everything up to
and including every anchor's window), identical scaler bounds on both
columns of the shifted table, but a different close at row 6. -/
def tableB2 : Table := [[0], [10], [1], [2], [3], [4], [7], [9]]

/-- C2 counterexample: with horizon `H = 2` and window length `L = 2`, the
produced pair at anchor position 3 differs between two tables that agree on
all rows up to the anchor (rows 0–5) and whose fitted scaler bounds
coincide — so the input window does not consist only of FeatureRow values
of its `L` rows: it also carries the shifted target column, i.e. close
values from after those rows. -/
theorem createTargets_window_not_only_feature_rows :
    tableA2.take 6 = tableB2.take 6 ∧
    fitBounds (dropNaTarget (shiftTarget 2 0 tableA2)) 2 =
      fitBounds (dropNaTarget (shiftTarget 2 0 tableB2)) 2 ∧
    (createTargets 2 2 0 1 tableA2)[3]? ≠ (createTargets 2 2 0 1 tableB2)[3]? := by
  with_unfolding_all decide

/-- C2 amended: each produced input window consists of the `L` consecutive
scaled rows of the shifted table preceding the anchor, where every such row
carries, besides the FeatureRow values of that row, the appended target
column — the close `H` bars after that row.  For `H ≥ 1` the window hence
contains close values from after its rows.  The anchor's own target, the
close `H` bars after the anchor, appears as the paired label (scaled with
the target column's bounds). -/
theorem createTargets_window_contents (H L closeIdx width : ℕ) (rows : Table)
    (k : ℕ) (hw : ∀ r ∈ rows, r.length = width)
    (hk : k + L < rows.length - H) :
    (createTargets H L closeIdx width rows)[k]? =
      some (((List.range L).map (fun j =>
          scaleRow (fitBounds (dropNaTarget (shiftTarget H closeIdx rows)) (width + 1))
            (rows.getD (k + j) [] ++ [(rows.getD (k + j + H) []).getD closeIdx 0]))),
        scaleVal ((fitBounds (dropNaTarget (shiftTarget H closeIdx rows)) (width + 1)).getD
            width (0, 0))
          ((rows.getD (k + L + H) []).getD closeIdx 0)) :=
  createTargets_pair H L closeIdx width rows k hw hk

/-- Witness for C2's amended theorem at the concrete counterexample table
(horizon 2, window length 2, anchor position 0). -/
theorem createTargets_window_contents_witness :
    (createTargets 2 2 0 1 tableA2)[0]? =
      some (((List.range 2).map (fun j =>
          scaleRow (fitBounds (dropNaTarget (shiftTarget 2 0 tableA2)) (1 + 1))
            (tableA2.getD (0 + j) [] ++ [(tableA2.getD (0 + j + 2) []).getD 0 0]))),
        scaleVal ((fitBounds (dropNaTarget (shiftTarget 2 0 tableA2)) (1 + 1)).getD
            1 (0, 0))
          ((tableA2.getD (0 + 2 + 2) []).getD 0 0)) :=
  createTargets_window_contents 2 2 0 1 tableA2 0
    (by with_unfolding_all decide) (by with_unfolding_all decide)

/-- C7: for every horizon `H` and a feature table of `n` `width`-wide rows,
the shifted target column pairs row `i` with exactly the close at index
`i + H` whenever `i + H < n`, and marks every row within `H` of the table's
end as having no target; `dropna` then keeps exactly the first `n − H`
rows, the pair list has exactly `(n − H) − L` entries (so the trailing
anchors produce no pair), and the pair at position `k` — anchor `k + L` —
carries as its label the close at index `(k + L) + H`, scaled with the
target column's bounds, an index that always stays inside the table. -/
theorem createTargets_target_alignment (H L closeIdx width : ℕ) (rows : Table)
    (hw : ∀ r ∈ rows, r.length = width) :
    (∀ i, i + H < rows.length →
      (shiftTarget H closeIdx rows)[i]? =
        some (rows.getD i [], some ((rows.getD (i + H) []).getD closeIdx 0))) ∧
    (∀ i, rows.length ≤ i + H → i < rows.length →
      (shiftTarget H closeIdx rows)[i]? = some (rows.getD i [], none)) ∧
    (dropNaTarget (shiftTarget H closeIdx rows)).length = rows.length - H ∧
    (createTargets H L closeIdx width rows).length = rows.length - H - L ∧
    (∀ k, k + L < rows.length - H →
      k + L + H < rows.length ∧
      ∃ w, (createTargets H L closeIdx width rows)[k]? =
        some (w,
          scaleVal ((fitBounds (dropNaTarget (shiftTarget H closeIdx rows)) (width + 1)).getD
              width (0, 0))
            ((rows.getD (k + L + H) []).getD closeIdx 0))) := by
  refine ⟨?_, ?_, ?_, ?_, ?_⟩
  · intro i hi
    exact shiftTarget_getElem_lt H closeIdx rows i hi
  · intro i hge hi
    exact shiftTarget_getElem_ge H closeIdx rows i hge hi
  · rw [dropNa_shift_eq]
    simp
  · unfold createTargets
    rw [prepareData_length, dropNa_shift_eq]
    simp
  · intro k hk
    refine ⟨by omega, _, createTargets_pair H L closeIdx width rows k hw hk⟩

/-- Witness for C7 at the concrete table `tableA2` (horizon 2, window
length 2, one-column rows). -/
theorem createTargets_target_alignment_witness :
    (∀ i, i + 2 < tableA2.length →
      (shiftTarget 2 0 tableA2)[i]? =
        some (tableA2.getD i [], some ((tableA2.getD (i + 2) []).getD 0 0))) ∧
    (∀ i, tableA2.length ≤ i + 2 → i < tableA2.length →
      (shiftTarget 2 0 tableA2)[i]? = some (tableA2.getD i [], none)) ∧
    (dropNaTarget (shiftTarget 2 0 tableA2)).length = tableA2.length - 2 ∧
    (createTargets 2 2 0 1 tableA2).length = tableA2.length - 2 - 2 ∧
    (∀ k, k + 2 < tableA2.length - 2 →
      k + 2 + 2 < tableA2.length ∧
      ∃ w, (createTargets 2 2 0 1 tableA2)[k]? =
        some (w,
          scaleVal ((fitBounds (dropNaTarget (shiftTarget 2 0 tableA2)) (1 + 1)).getD
              1 (0, 0))
            ((tableA2.getD (k + 2 + 2) []).getD 0 0))) :=
  createTargets_target_alignment 2 2 0 1 tableA2 (by with_unfolding_all decide)

end SeqGen

namespace FeatureEng

/-- One OHLCV price bar.  The field `opn` embeds the `open` column (a Lean
keyword). -/
structure Bar : Type where
  opn : ℚ
  high : ℚ
  low : ℚ
  close : ℚ
  volume : ℚ
deriving DecidableEq, Repr

/-- A column of the feature DataFrame: one optional entry per bar, aligned
index-for-index with the bar series (`none` embeds NaN). -/
abbrev OSer (ι : Type) := List (Option ι)

/-- Rolling-window combinator (pandas `rolling` / the TA-Lib lookback
discipline): entry `i` applies `f` to the window of the last `n` entries
ending at `i`, and is NaN during the first `n − 1` positions. -/
def winO {ι : Type} (n : ℕ) (f : List (Option ι) → Option ℚ) (s : OSer ι) :
    OSer ℚ :=
  (List.range s.length).map (fun i =>
    if n ≤ i + 1 then f ((s.take (i + 1)).drop (i + 1 - n)) else none)

/-- Worker for `scanO`: emits NaN while fewer than `n` defined values have
been seen, seeds the running state from the first `n` of them, then steps
once per further value, emitting `out` of the state each time. -/
def scanOAux {ι σ : Type} (n : ℕ) (seed : List ι → σ) (step : σ → ι → σ)
    (out : σ → Option ℚ) :
    List ι → Option σ → List (Option ι) → OSer ℚ
  | _, _, [] => []
  | buf, st, none :: rest => none :: scanOAux n seed step out buf st rest
  | buf, none, some x :: rest =>
    if (buf ++ [x]).length = n then
      out (seed (buf ++ [x])) ::
        scanOAux n seed step out (buf ++ [x]) (some (seed (buf ++ [x]))) rest
    else none :: scanOAux n seed step out (buf ++ [x]) none rest
  | buf, some s, some x :: rest =>
    out (step s x) :: scanOAux n seed step out buf (some (step s x)) rest

/-- Seeded-scan combinator for the TA-Lib recursive indicators (EMA, RSI,
ATR, the MACD signal line): NaN until `n` defined inputs have arrived, a
seed state built from those `n` values, then one smoothing step per further
value. -/
def scanO {ι σ : Type} (n : ℕ) (seed : List ι → σ) (step : σ → ι → σ)
    (out : σ → Option ℚ) (s : List (Option ι)) : OSer ℚ :=
  scanOAux n seed step out [] none s

/-- Pointwise column arithmetic with NaN propagation (pandas Series
arithmetic); `f` may itself return NaN, which embeds a zero-denominator
division. -/
def zipO (f : ℚ → ℚ → Option ℚ) (s t : OSer ℚ) : OSer ℚ :=
  List.zipWith (fun a b =>
    match a, b with
    | some x, some y => f x y
    | _, _ => none) s t

/-- The close column. -/
def closeSer (bars : List Bar) : OSer ℚ := bars.map (fun b => some b.close)

/-- The volume column. -/
def volSer (bars : List Bar) : OSer ℚ := bars.map (fun b => some b.volume)

/-- Pandas `pct_change(periods=k)` on the close column:
`close[i] / close[i−k] − 1`, NaN for the first `k` rows and on a zero
denominator. -/
def pctChange (k : ℕ) (bars : List Bar) : OSer ℚ :=
  winO (k + 1) (fun w =>
    match w.head?, w.getLast? with
    | some (some a), some (some b) => if a = 0 then none else some (b / a - 1)
    | _, _ => none) (closeSer bars)

/-- High-low spread `(high − low) / close`. -/
def hlSpread (bars : List Bar) : OSer ℚ :=
  bars.map (fun b => if b.close = 0 then none else some ((b.high - b.low) / b.close))

/-- Open-close spread `(close − open) / open`. -/
def ocSpread (bars : List Bar) : OSer ℚ :=
  bars.map (fun b => if b.opn = 0 then none else some ((b.close - b.opn) / b.opn))

/-- TA-Lib `SMA(timeperiod=n)` over an optional series (also used for the
volume SMA and the stochastic smoothing): the mean of the last `n` entries,
NaN while the window is short or contains NaN. -/
def smaWin (n : ℕ) (s : OSer ℚ) : OSer ℚ :=
  winO n (fun w =>
    if w.all Option.isSome then some ((w.reduceOption).sum / (n : ℚ)) else none) s

/-- TA-Lib `EMA(timeperiod=n)`: seeded with the SMA of the first `n`
values, then `e + (2 / (n + 1)) · (x − e)`. -/
def emaScan (n : ℕ) (s : OSer ℚ) : OSer ℚ :=
  scanO n (fun buf => buf.sum / (n : ℚ))
    (fun e x => e + (2 / ((n : ℚ) + 1)) * (x - e))
    (fun e => some e) s

/-- Distance from an `n`-bar SMA: `(close − sma) / sma`. -/
def distSma (n : ℕ) (bars : List Bar) : OSer ℚ :=
  winO n (fun w =>
    if w.all Option.isSome then
      match w.getLast? with
      | some (some c) =>
        if (w.reduceOption).sum / (n : ℚ) = 0 then none
        else some ((c - (w.reduceOption).sum / (n : ℚ)) /
          ((w.reduceOption).sum / (n : ℚ)))
      | _ => none
    else none) (closeSer bars)

/-- Consecutive close-to-close changes, NaN at index 0. -/
def diffSer : List ℚ → OSer ℚ
  | [] => []
  | x :: rest => none :: List.zipWith (fun a b => some (b - a)) (x :: rest) rest

/-- TA-Lib `RSI(timeperiod=14)`: simple averages of the first 14 gains and
losses, Wilder smoothing afterwards, output `100 · g / (g + l)` (NaN when
`g + l = 0`, where TA-Lib guards the zero denominator). -/
def rsiSer (bars : List Bar) : OSer ℚ :=
  scanO 14
    (fun buf => (((buf.map (fun c => if 0 < c then c else 0)).sum) / 14,
                 ((buf.map (fun c => if c < 0 then -c else 0)).sum) / 14))
    (fun gl c => ((gl.1 * 13 + (if 0 < c then c else 0)) / 14,
                  (gl.2 * 13 + (if c < 0 then -c else 0)) / 14))
    (fun gl => if gl.1 + gl.2 = 0 then none else some (100 * gl.1 / (gl.1 + gl.2)))
    (diffSer (bars.map Bar.close))

/-- TA-Lib `MACD(12, 26, 9)` line: `EMA12 − EMA26`. -/
def macdSer (bars : List Bar) : OSer ℚ :=
  zipO (fun a b => some (a - b)) (emaScan 12 (closeSer bars))
    (emaScan 26 (closeSer bars))

/-- The MACD signal line: a 9-period EMA of the MACD line. -/
def macdSignalSer (bars : List Bar) : OSer ℚ :=
  scanO 9 (fun buf => buf.sum / (9 : ℚ))
    (fun e x => e + (2 / (10 : ℚ)) * (x - e))
    (fun e => some e) (macdSer bars)

/-- The MACD histogram: line minus signal. -/
def macdHistSer (bars : List Bar) : OSer ℚ :=
  zipO (fun a b => some (a - b)) (macdSer bars) (macdSignalSer bars)

/-- The raw stochastic `%K` over a 14-bar window of highs/lows:
`100 · (close − ll) / (hh − ll)`, NaN on a flat window. -/
def fastKSer (bars : List Bar) : OSer ℚ :=
  winO 14 (fun w =>
    if w.all Option.isSome then
      match (((w.reduceOption).map Bar.high).max?),
          (((w.reduceOption).map Bar.low).min?), (w.reduceOption).getLast? with
      | some hh, some ll, some b =>
        if hh - ll = 0 then none else some (100 * (b.close - ll) / (hh - ll))
      | _, _, _ => none
    else none) (bars.map some)

/-- TA-Lib `STOCH(14, 3, 3)` slow `%K`: a 3-period SMA of the raw `%K`. -/
def stochKSer (bars : List Bar) : OSer ℚ := smaWin 3 (fastKSer bars)

/-- TA-Lib `STOCH(14, 3, 3)` slow `%D`: a 3-period SMA of the slow `%K`. -/
def stochDSer (bars : List Bar) : OSer ℚ := smaWin 3 (stochKSer bars)

/-- TA-Lib `ROC(timeperiod=10)`: `100 · (close[i] / close[i−10] − 1)`. -/
def rocSer (bars : List Bar) : OSer ℚ :=
  winO 11 (fun w =>
    match w.head?, w.getLast? with
    | some (some a), some (some b) =>
      if a = 0 then none else some (100 * (b / a - 1))
    | _, _ => none) (closeSer bars)

/-- TA-Lib `CCI(timeperiod=14)` over the typical price `(h + l + c) / 3`:
`(tp − sma(tp)) / (0.015 · meandev)`, NaN on zero mean deviation. -/
def cciSer (bars : List Bar) : OSer ℚ :=
  winO 14 (fun w =>
    if w.all Option.isSome then
      match (w.reduceOption).getLast? with
      | some tp =>
        if ((w.reduceOption).map
            (fun x => |x - (w.reduceOption).sum / 14|)).sum / 14 = 0 then none
        else some ((tp - (w.reduceOption).sum / 14) /
          ((3 / 200) * (((w.reduceOption).map
            (fun x => |x - (w.reduceOption).sum / 14|)).sum / 14)))
      | _ => none
    else none)
    (bars.map (fun b => some ((b.high + b.low + b.close) / 3)))

/-- The population variance of a 20-close window, used by the Bollinger
bands (TA-Lib `BBANDS` uses the population standard deviation). -/
def popVar (vals : List ℚ) (n : ℕ) : ℚ :=
  (vals.map (fun x => (x - vals.sum / (n : ℚ)) ^ 2)).sum / (n : ℚ)

/-- Bollinger middle band: the 20-bar SMA of the close. -/
def bbMiddleSer (bars : List Bar) : OSer ℚ := smaWin 20 (closeSer bars)

/-- Bollinger upper band: `sma + 2 · σ` with `σ = sqrtF (popVar)`. -/
def bbUpperSer (sqrtF : ℚ → ℚ) (bars : List Bar) : OSer ℚ :=
  winO 20 (fun w =>
    if w.all Option.isSome then
      some ((w.reduceOption).sum / 20 + 2 * sqrtF (popVar (w.reduceOption) 20))
    else none) (closeSer bars)

/-- Bollinger lower band: `sma − 2 · σ`. -/
def bbLowerSer (sqrtF : ℚ → ℚ) (bars : List Bar) : OSer ℚ :=
  winO 20 (fun w =>
    if w.all Option.isSome then
      some ((w.reduceOption).sum / 20 - 2 * sqrtF (popVar (w.reduceOption) 20))
    else none) (closeSer bars)

/-- Bollinger band width `(upper − lower) / middle`, computed as pandas
column arithmetic. -/
def bbWidthSer (sqrtF : ℚ → ℚ) (bars : List Bar) : OSer ℚ :=
  zipO (fun ul m => if m = 0 then none else some (ul / m))
    (zipO (fun u l => some (u - l)) (bbUpperSer sqrtF bars) (bbLowerSer sqrtF bars))
    (bbMiddleSer bars)

/-- Bollinger position `(close − lower) / (upper − lower)`; a flat 20-bar
close window makes this the genuine NumPy `0/0` NaN. -/
def bbPositionSer (sqrtF : ℚ → ℚ) (bars : List Bar) : OSer ℚ :=
  zipO (fun cl ul => if ul = 0 then none else some (cl / ul))
    (zipO (fun c l => some (c - l)) (closeSer bars) (bbLowerSer sqrtF bars))
    (zipO (fun u l => some (u - l)) (bbUpperSer sqrtF bars) (bbLowerSer sqrtF bars))

/-- The true range series: NaN at index 0, then
`max (high − low) (max |high − prevClose| |low − prevClose|)`. -/
def trSer : List Bar → OSer ℚ
  | [] => []
  | b :: rest =>
    none :: List.zipWith (fun p c =>
      some (max (c.high - c.low) (max |c.high - p.close| |c.low - p.close|)))
      (b :: rest) rest

/-- TA-Lib `ATR(timeperiod=14)`: the SMA of the first 14 true ranges, then
Wilder smoothing `(13 · atr + tr) / 14`. -/
def atrSer (bars : List Bar) : OSer ℚ :=
  scanO 14 (fun buf => buf.sum / 14)
    (fun a tr => (a * 13 + tr) / 14)
    (fun a => some a) (trSer bars)

/-- Rolling 20-bar sample standard deviation of the 1-day returns (pandas
`pct_change().rolling(20).std()`, `ddof = 1`). -/
def volatilitySer (sqrtF : ℚ → ℚ) (bars : List Bar) : OSer ℚ :=
  winO 20 (fun w =>
    if w.all Option.isSome then
      some (sqrtF (((w.reduceOption).map
        (fun x => (x - (w.reduceOption).sum / 20) ^ 2)).sum / 19))
    else none) (pctChange 1 bars)

/-- The 20-bar volume SMA. -/
def volumeSmaSer (bars : List Bar) : OSer ℚ := smaWin 20 (volSer bars)

/-- Volume ratio `volume / volume_sma_20`. -/
def volumeRatioSer (bars : List Bar) : OSer ℚ :=
  zipO (fun v m => if m = 0 then none else some (v / m))
    (volSer bars) (volumeSmaSer bars)

/-- TA-Lib `OBV`: starts at the first bar's volume, then adds (subtracts)
the volume when the close rises (falls). -/
def obvSer (bars : List Bar) : OSer ℚ :=
  scanO 1 (fun buf => match buf with
      | [] => (0, 0)
      | b :: _ => (b.volume, b.close))
    (fun st b =>
      (if st.2 < b.close then st.1 + b.volume
       else if b.close < st.2 then st.1 - b.volume else st.1, b.close))
    (fun st => some st.1) (bars.map some)

/-- The money-flow volume of one bar,
`((close − low) − (high − close)) / (high − low) · volume`; NaN on a flat
bar (where TA-Lib's `AD` skips the contribution). -/
def mfv (b : Bar) : Option ℚ :=
  if b.high - b.low = 0 then none
  else some (((b.close - b.low) - (b.high - b.close)) / (b.high - b.low) * b.volume)

/-- The accumulation/distribution line: the running sum of money-flow
volumes. -/
def adSer (bars : List Bar) : OSer ℚ :=
  scanO 1 (fun buf => match buf with
      | [] => none
      | b :: _ => mfv b)
    (fun st b => match st, mfv b with
      | some a, some m => some (a + m)
      | _, _ => none)
    (fun st => st) (bars.map some)

/-- All 40 columns of the engineered feature DataFrame, in the source's
column order: the five original OHLCV columns, then the features added by
`add_price_features`, `add_moving_averages`, `add_momentum_indicators`,
`add_volatility_indicators` and `add_volume_indicators`.  (The guide's
banner arithmetic speaks of 41 columns; the code adds 35 feature columns to
the 5 OHLCV columns.)  `sqrtF` embeds the square root used by the
Bollinger-band and volatility features. -/
def featureCols (sqrtF : ℚ → ℚ) (bars : List Bar) : List (OSer ℚ) :=
  [bars.map (fun b => some b.opn),
   bars.map (fun b => some b.high),
   bars.map (fun b => some b.low),
   closeSer bars,
   volSer bars,
   pctChange 1 bars,
   pctChange 1 bars,
   pctChange 7 bars,
   pctChange 30 bars,
   hlSpread bars,
   ocSpread bars,
   smaWin 5 (closeSer bars),
   smaWin 10 (closeSer bars),
   smaWin 20 (closeSer bars),
   smaWin 50 (closeSer bars),
   smaWin 200 (closeSer bars),
   emaScan 12 (closeSer bars),
   emaScan 26 (closeSer bars),
   emaScan 50 (closeSer bars),
   distSma 20 bars,
   distSma 50 bars,
   rsiSer bars,
   macdSer bars,
   macdSignalSer bars,
   macdHistSer bars,
   stochKSer bars,
   stochDSer bars,
   rocSer bars,
   cciSer bars,
   bbUpperSer sqrtF bars,
   bbMiddleSer bars,
   bbLowerSer sqrtF bars,
   bbWidthSer sqrtF bars,
   bbPositionSer sqrtF bars,
   atrSer bars,
   volatilitySer sqrtF bars,
   volumeSmaSer bars,
   volumeRatioSer bars,
   obvSer bars,
   adSer bars]

/-- Row `i` of the feature DataFrame before `dropna`: the `i`-th entry of
every column. -/
def featureRow (sqrtF : ℚ → ℚ) (bars : List Bar) (i : ℕ) : List (Option ℚ) :=
  (featureCols sqrtF bars).map (fun c => c.getD i none)

/-- Peel `n` rows off a list of columns: row `k` holds the `k`-th entry
(`none`-padded) of every column — the row-major view of the DataFrame's
columns, built one entry per step so each column is traversed once. -/
def rowsOfCols : ℕ → List (OSer ℚ) → List (List (Option ℚ))
  | 0, _ => []
  | n + 1, cols =>
    cols.map (fun c => c.headD none) :: rowsOfCols n (cols.map List.tail)

/-- The feature DataFrame before `dropna`: one row per input bar.  (Stated
row-indexed by `featureTable_eq` below.) -/
def featureTable (sqrtF : ℚ → ℚ) (bars : List Bar) : List (List (Option ℚ)) :=
  rowsOfCols bars.length (featureCols sqrtF bars)

/-- The `dropna` step of `add_all_features`: rows containing any NaN are
removed, the remaining rows become plain numeric rows. -/
def dropNaRows (table : List (List (Option ℚ))) : List (List ℚ) :=
  table.filterMap (fun r =>
    if r.all Option.isSome then some r.reduceOption else none)

/-- Shallow embedding of `FeatureEngineer.add_all_features`: build every
feature column, then drop all rows containing NaN. -/
def addAllFeatures (sqrtF : ℚ → ℚ) (bars : List Bar) : List (List ℚ) :=
  dropNaRows (featureTable sqrtF bars)

end FeatureEng

namespace FeatureEng

/-- Entries below the cut agree between lists with equal prefixes. -/
theorem getElem?_of_take_eq {α : Type} {s t : List α} {m : ℕ}
    (h : s.take m = t.take m) {j : ℕ} (hj : j < m) : s[j]? = t[j]? := by
  rw [← List.getElem?_take_of_lt hj (l := s), h, List.getElem?_take_of_lt hj]

/-- Equal entries below the cut give equal prefixes. -/
theorem take_eq_of_getElem? {α : Type} {s t : List α} {m : ℕ}
    (h : ∀ j, j < m → s[j]? = t[j]?) : s.take m = t.take m := by
  apply List.ext_getElem?
  intro j
  by_cases hj : j < m
  · rw [List.getElem?_take_of_lt hj, List.getElem?_take_of_lt hj]
    exact h j hj
  · rw [List.getElem?_eq_none, List.getElem?_eq_none] <;>
      · simp only [List.length_take]
        omega

/-- Prefix equality bounds the lengths in lockstep. -/
theorem length_min_of_take_eq {α : Type} {s t : List α} {m : ℕ}
    (h : s.take m = t.take m) : min m s.length = min m t.length := by
  have := congrArg List.length h
  simpa using this

/-- A shorter prefix of a prefix equality. -/
theorem take_mono_of_take_eq {α : Type} {s t : List α} {m k : ℕ}
    (h : s.take m = t.take m) (hk : k ≤ m) : s.take k = t.take k := by
  calc s.take k = (s.take m).take k := by rw [List.take_take, min_eq_left hk]
    _ = (t.take m).take k := by rw [h]
    _ = t.take k := by rw [List.take_take, min_eq_left hk]

/-- `map` preserves prefix equality. -/
theorem map_take_eq {α β : Type} (f : α → β) {s t : List α} {m : ℕ}
    (h : s.take m = t.take m) : (s.map f).take m = (t.map f).take m := by
  rw [← List.map_take, h, List.map_take]

/-- The rolling-window combinator is causal: entry `i` reads only entries
up to `i`, so prefix-equal inputs give prefix-equal outputs. -/
theorem winO_take_eq {ι : Type} (n : ℕ) (f : List (Option ι) → Option ℚ)
    {s t : OSer ι} {m : ℕ} (h : s.take m = t.take m) :
    (winO n f s).take m = (winO n f t).take m := by
  have hlen := length_min_of_take_eq h
  apply take_eq_of_getElem?
  intro j hj
  unfold winO
  rw [List.getElem?_map, List.getElem?_map]
  by_cases hjs : j < s.length
  · have hjt : j < t.length := by omega
    rw [List.getElem?_range hjs, List.getElem?_range hjt]
    have hw : s.take (j + 1) = t.take (j + 1) :=
      take_mono_of_take_eq h (by omega)
    simp only [Option.map_some']
    rw [hw]
  · have hjt : ¬ j < t.length := by omega
    rw [List.getElem?_eq_none (by simpa using Nat.le_of_not_lt hjs),
      List.getElem?_eq_none (by simpa using Nat.le_of_not_lt hjt)]
    rfl

/-- The seeded-scan worker is causal: it consumes its input one entry per
output entry, carrying state derived only from consumed entries. -/
theorem scanOAux_take_eq {ι σ : Type} (n : ℕ) (seed : List ι → σ)
    (step : σ → ι → σ) (out : σ → Option ℚ) :
    ∀ (s t : List (Option ι)) (m : ℕ) (buf : List ι) (st : Option σ),
      s.take m = t.take m →
      (scanOAux n seed step out buf st s).take m =
        (scanOAux n seed step out buf st t).take m := by
  intro s
  induction s with
  | nil =>
    intro t m buf st h
    cases t with
    | nil => rfl
    | cons b bs =>
      cases m with
      | zero => rfl
      | succ m => simp at h
  | cons a as ih =>
    intro t m buf st h
    cases m with
    | zero => rfl
    | succ m =>
      cases t with
      | nil => simp at h
      | cons b bs =>
        rw [List.take_succ_cons, List.take_succ_cons] at h
        injection h with h1 h2
        subst h1
        cases a with
        | none =>
          simp only [scanOAux]
          rw [List.take_succ_cons, List.take_succ_cons, ih bs m buf st h2]
        | some x =>
          cases st with
          | some s0 =>
            simp only [scanOAux]
            rw [List.take_succ_cons, List.take_succ_cons, ih bs m buf _ h2]
          | none =>
            simp only [scanOAux]
            by_cases hb : (buf ++ [x]).length = n
            · rw [if_pos hb, if_pos hb, List.take_succ_cons,
                List.take_succ_cons, ih bs m _ _ h2]
            · rw [if_neg hb, if_neg hb, List.take_succ_cons,
                List.take_succ_cons, ih bs m _ _ h2]

/-- The seeded-scan combinator is causal. -/
theorem scanO_take_eq {ι σ : Type} (n : ℕ) (seed : List ι → σ)
    (step : σ → ι → σ) (out : σ → Option ℚ) {s t : List (Option ι)} {m : ℕ}
    (h : s.take m = t.take m) :
    (scanO n seed step out s).take m = (scanO n seed step out t).take m :=
  scanOAux_take_eq n seed step out s t m [] none h

/-- Pointwise column arithmetic is causal. -/
theorem zipO_take_eq (f : ℚ → ℚ → Option ℚ) {s t u v : OSer ℚ} {m : ℕ}
    (h1 : s.take m = u.take m) (h2 : t.take m = v.take m) :
    (zipO f s t).take m = (zipO f u v).take m := by
  unfold zipO
  rw [List.take_zipWith, List.take_zipWith, h1, h2]

/-- Prefix equality of tails of prefix-equal cons lists. -/
theorem take_cons_of_take_eq {α : Type} (a : α) {s t : List α} {m : ℕ}
    (h : s.take m = t.take m) : (a :: s).take m = (a :: t).take m := by
  cases m with
  | zero => rfl
  | succ k =>
    rw [List.take_succ_cons, List.take_succ_cons,
      take_mono_of_take_eq h (Nat.le_succ k)]

/-- The close-to-close difference series is causal. -/
theorem diffSer_take_eq {s t : List ℚ} {m : ℕ} (h : s.take m = t.take m) :
    (diffSer s).take m = (diffSer t).take m := by
  cases s with
  | nil =>
    cases t with
    | nil => rfl
    | cons b bs =>
      cases m with
      | zero => rfl
      | succ m => simp at h
  | cons a as =>
    cases t with
    | nil =>
      cases m with
      | zero => rfl
      | succ m => simp at h
    | cons b bs =>
      cases m with
      | zero => rfl
      | succ m =>
        rw [List.take_succ_cons, List.take_succ_cons] at h
        injection h with h1 h2
        subst h1
        simp only [diffSer]
        rw [List.take_succ_cons, List.take_succ_cons]
        congr 1
        rw [List.take_zipWith, List.take_zipWith,
          take_cons_of_take_eq a h2, h2]

/-- The true-range series is causal. -/
theorem trSer_take_eq {s t : List Bar} {m : ℕ} (h : s.take m = t.take m) :
    (trSer s).take m = (trSer t).take m := by
  cases s with
  | nil =>
    cases t with
    | nil => rfl
    | cons b bs =>
      cases m with
      | zero => rfl
      | succ m => simp at h
  | cons a as =>
    cases t with
    | nil =>
      cases m with
      | zero => rfl
      | succ m => simp at h
    | cons b bs =>
      cases m with
      | zero => rfl
      | succ m =>
        rw [List.take_succ_cons, List.take_succ_cons] at h
        injection h with h1 h2
        subst h1
        simp only [trSer]
        rw [List.take_succ_cons, List.take_succ_cons]
        congr 1
        rw [List.take_zipWith, List.take_zipWith,
          take_cons_of_take_eq a h2, h2]

/-- The SMA combinator is causal. -/
theorem smaWin_take_eq (n : ℕ) {s t : OSer ℚ} {m : ℕ}
    (h : s.take m = t.take m) :
    (smaWin n s).take m = (smaWin n t).take m := by
  unfold smaWin
  exact winO_take_eq n _ h

/-- Every feature column is causal: a bar-series prefix determines the
matching prefix of each of the 40 columns. -/
theorem featureCols_forall₂ (sqrtF : ℚ → ℚ) {xs ys : List Bar} {m : ℕ}
    (h : xs.take m = ys.take m) :
    List.Forall₂ (fun c d => c.take m = d.take m)
      (featureCols sqrtF xs) (featureCols sqrtF ys) := by
  have hc : (closeSer xs).take m = (closeSer ys).take m :=
    map_take_eq _ h
  have hv : (volSer xs).take m = (volSer ys).take m :=
    map_take_eq _ h
  have hsome : (xs.map some).take m = (ys.map some).take m :=
    map_take_eq _ h
  have hema12 := scanO_take_eq 12 (fun buf => buf.sum / (12 : ℚ))
    (fun e x => e + (2 / ((12 : ℚ) + 1)) * (x - e)) (fun e => some e) hc
  have hema26 := scanO_take_eq 26 (fun buf => buf.sum / (26 : ℚ))
    (fun e x => e + (2 / ((26 : ℚ) + 1)) * (x - e)) (fun e => some e) hc
  have hmacd : (macdSer xs).take m = (macdSer ys).take m :=
    zipO_take_eq _ hema12 hema26
  have hsignal : (macdSignalSer xs).take m = (macdSignalSer ys).take m :=
    scanO_take_eq 9 _ _ _ hmacd
  have hfastk : (fastKSer xs).take m = (fastKSer ys).take m :=
    winO_take_eq 14 _ hsome
  have hstochk : (stochKSer xs).take m = (stochKSer ys).take m := by
    unfold stochKSer
    exact smaWin_take_eq 3 hfastk
  have hbbu : (bbUpperSer sqrtF xs).take m = (bbUpperSer sqrtF ys).take m :=
    winO_take_eq 20 _ hc
  have hbbl : (bbLowerSer sqrtF xs).take m = (bbLowerSer sqrtF ys).take m :=
    winO_take_eq 20 _ hc
  have hbbm : (bbMiddleSer xs).take m = (bbMiddleSer ys).take m := by
    unfold bbMiddleSer
    exact smaWin_take_eq 20 hc
  have hvsma : (volumeSmaSer xs).take m = (volumeSmaSer ys).take m := by
    unfold volumeSmaSer
    exact smaWin_take_eq 20 hv
  unfold featureCols
  simp only [List.forall₂_cons, List.forall₂_nil_left_iff, and_true]
  exact ⟨map_take_eq _ h, map_take_eq _ h, map_take_eq _ h, hc, hv,
    winO_take_eq 2 _ hc, winO_take_eq 2 _ hc, winO_take_eq 8 _ hc,
    winO_take_eq 31 _ hc, map_take_eq _ h, map_take_eq _ h,
    smaWin_take_eq 5 hc, smaWin_take_eq 10 hc, smaWin_take_eq 20 hc,
    smaWin_take_eq 50 hc, smaWin_take_eq 200 hc,
    hema12, hema26, scanO_take_eq 50 _ _ _ hc,
    winO_take_eq 20 _ hc, winO_take_eq 50 _ hc,
    scanO_take_eq 14 _ _ _ (diffSer_take_eq (map_take_eq Bar.close h)),
    hmacd, hsignal, zipO_take_eq _ hmacd hsignal,
    hstochk, smaWin_take_eq 3 hstochk,
    winO_take_eq 11 _ hc, winO_take_eq 14 _ (map_take_eq _ h),
    hbbu, hbbm, hbbl,
    zipO_take_eq _ (zipO_take_eq _ hbbu hbbl) hbbm,
    zipO_take_eq _ (zipO_take_eq _ hc hbbl) (zipO_take_eq _ hbbu hbbl),
    scanO_take_eq 14 _ _ _ (trSer_take_eq h),
    winO_take_eq 20 _ (winO_take_eq 2 _ hc),
    hvsma, zipO_take_eq _ hv hvsma,
    scanO_take_eq 1 _ _ _ hsome, scanO_take_eq 1 _ _ _ hsome⟩

end FeatureEng

namespace FeatureEng

/-- Pointwise entries of column lists related by prefix equality agree
below the cut. -/
theorem map_getD_eq_of_forall₂ {m j : ℕ} (hj : j < m) :
    ∀ {cs ds : List (OSer ℚ)},
      List.Forall₂ (fun c d => c.take m = d.take m) cs ds →
      cs.map (fun c => c.getD j none) = ds.map (fun c => c.getD j none) := by
  intro cs ds h
  induction h with
  | nil => rfl
  | @cons c d cs ds h1 h2 ih =>
    simp only [List.map_cons, ih]
    congr 1
    rw [List.getD_eq_getElem?_getD, List.getD_eq_getElem?_getD,
      getElem?_of_take_eq h1 hj]

/-- Rows below the cut agree between prefix-equal bar series. -/
theorem featureRow_take_eq (sqrtF : ℚ → ℚ) {xs ys : List Bar} {m : ℕ}
    (h : xs.take m = ys.take m) {j : ℕ} (hj : j < m) :
    featureRow sqrtF xs j = featureRow sqrtF ys j :=
  map_getD_eq_of_forall₂ hj (featureCols_forall₂ sqrtF h)

/-- The head of an option column is its entry at index 0. -/
theorem headD_eq_getD_zero {α : Type} (c : List (Option α)) :
    c.headD none = c.getD 0 none := by
  cases c <;> rfl

/-- `getD` of a tail shifts the index by one. -/
theorem tail_getD {α : Type} (c : List (Option α)) (i : ℕ) :
    c.tail.getD i none = c.getD (i + 1) none := by
  cases c <;> rfl

/-- `rowsOfCols` produces exactly `n` rows. -/
theorem rowsOfCols_length (n : ℕ) :
    ∀ cols : List (OSer ℚ), (rowsOfCols n cols).length = n := by
  induction n with
  | zero => intro cols; rfl
  | succ n ih =>
    intro cols
    simp only [rowsOfCols, List.length_cons, ih]

/-- Row `i` of `rowsOfCols` is the vector of `i`-th column entries. -/
theorem rowsOfCols_getElem? (n : ℕ) :
    ∀ (cols : List (OSer ℚ)) (i : ℕ), i < n →
      (rowsOfCols n cols)[i]? = some (cols.map (fun c => c.getD i none)) := by
  induction n with
  | zero => intro cols i hi; omega
  | succ n ih =>
    intro cols i hi
    cases i with
    | zero =>
      simp only [rowsOfCols, List.getElem?_cons_zero, Option.some.injEq]
      exact List.map_congr_left (fun c _ => headD_eq_getD_zero c)
    | succ i =>
      simp only [rowsOfCols, List.getElem?_cons_succ]
      rw [ih (cols.map List.tail) i (by omega), List.map_map]
      exact congrArg some
        (List.map_congr_left (fun c _ => tail_getD c i))

/-- The feature DataFrame coincides with its row-indexed description. -/
theorem featureTable_eq (sqrtF : ℚ → ℚ) (bars : List Bar) :
    featureTable sqrtF bars =
      (List.range bars.length).map (featureRow sqrtF bars) := by
  unfold featureTable
  apply List.ext_getElem?
  intro i
  by_cases hi : i < bars.length
  · rw [rowsOfCols_getElem? bars.length (featureCols sqrtF bars) i hi,
      List.getElem?_map, List.getElem?_range hi]
    rfl
  · rw [List.getElem?_eq_none (by rw [rowsOfCols_length]; omega),
      List.getElem?_eq_none
        (by simp only [List.length_map, List.length_range]; omega)]

/-- The feature DataFrame (before `dropna`) is causal. -/
theorem featureTable_take_eq (sqrtF : ℚ → ℚ) {xs ys : List Bar} {m : ℕ}
    (h : xs.take m = ys.take m) :
    (featureTable sqrtF xs).take m = (featureTable sqrtF ys).take m := by
  have hlen := length_min_of_take_eq h
  apply take_eq_of_getElem?
  intro j hj
  rw [featureTable_eq, featureTable_eq]
  rw [List.getElem?_map, List.getElem?_map]
  by_cases hjx : j < xs.length
  · have hjy : j < ys.length := by omega
    rw [List.getElem?_range hjx, List.getElem?_range hjy]
    simp only [Option.map_some']
    rw [featureRow_take_eq sqrtF h hj]
  · have hjy : ¬ j < ys.length := by omega
    rw [List.getElem?_eq_none (by simpa using Nat.le_of_not_lt hjx),
      List.getElem?_eq_none (by simpa using Nat.le_of_not_lt hjy)]
    rfl

/-- A `filterMap` restricted to the rows arising from a prefix of its
input: the first `countP` outputs come exactly from the prefix. -/
theorem filterMap_take_count {α β : Type} (g : α → Option β) (l : List α)
    (m : ℕ) :
    (l.filterMap g).take ((l.take m).countP (fun a => (g a).isSome)) =
      (l.take m).filterMap g := by
  have key : l.filterMap g = (l.take m).filterMap g ++ (l.drop m).filterMap g := by
    rw [← List.filterMap_append, List.take_append_drop]
  rw [key, ← List.length_filterMap_eq_countP]
  exact List.take_left _ _

/-- C3: the Feature Engine never reads future bars.  If two bar series
agree on their first `m` bars then (i) the feature DataFrames agree on
their first `m` rows, and (ii) the `add_all_features` outputs agree on all
rows arising from those bars — so modifying any bar after the bar
underlying an output row leaves that FeatureRow unchanged.  This holds for
every square-root realisation `sqrtF`. -/
theorem featureEngine_no_future_dependence (sqrtF : ℚ → ℚ)
    (xs ys : List Bar) (m : ℕ) (h : xs.take m = ys.take m) :
    (featureTable sqrtF xs).take m = (featureTable sqrtF ys).take m ∧
    (addAllFeatures sqrtF xs).take
        (((featureTable sqrtF xs).take m).countP (fun r => r.all Option.isSome)) =
      (addAllFeatures sqrtF ys).take
        (((featureTable sqrtF ys).take m).countP (fun r => r.all Option.isSome)) := by
  have hmain := featureTable_take_eq sqrtF h
  refine ⟨hmain, ?_⟩
  have hcnt : ∀ (l : List (List (Option ℚ))),
      l.countP (fun r => r.all Option.isSome) =
        l.countP (fun r =>
          ((if r.all Option.isSome then some r.reduceOption else none) :
            Option (List ℚ)).isSome) := by
    intro l
    apply List.countP_congr
    intro r _
    by_cases hr : r.all Option.isSome <;> simp [hr]
  unfold addAllFeatures dropNaRows
  rw [hcnt, hcnt, filterMap_take_count, filterMap_take_count, hmain]

/-- The rolling-window combinator is NaN during its warm-up. -/
theorem winO_getD_none {ι : Type} (n : ℕ) (f : List (Option ι) → Option ℚ)
    (s : OSer ι) (i : ℕ) (hi : i + 1 < n) :
    (winO n f s).getD i none = none := by
  unfold winO
  rw [List.getD_eq_getElem?_getD, List.getElem?_map]
  by_cases hs : i < s.length
  · rw [List.getElem?_range hs]
    simp [Nat.not_le.mpr hi]
  · rw [List.getElem?_eq_none (by simpa using Nat.le_of_not_lt hs)]
    rfl

/-- Before index 199, every feature row contains NaN: the 200-bar SMA
column is still warming up. -/
theorem featureRow_not_all_some (sqrtF : ℚ → ℚ) (bars : List Bar) (i : ℕ)
    (hi : i < 199) :
    (featureRow sqrtF bars i).all Option.isSome = false := by
  have hnone : (smaWin 200 (closeSer bars)).getD i none = none := by
    unfold smaWin
    exact winO_getD_none 200 _ _ i (by omega)
  have hmem : (none : Option ℚ) ∈ featureRow sqrtF bars i := by
    rw [← hnone]
    apply List.mem_map.mpr
    refine ⟨smaWin 200 (closeSer bars), ?_, rfl⟩
    unfold featureCols
    simp
  cases hall : (featureRow sqrtF bars i).all Option.isSome
  · rfl
  · exfalso
    have := List.all_eq_true.mp hall _ hmem
    simp at this

/-- Row `i` of the feature DataFrame, for `i` in range. -/
theorem featureTable_getD (sqrtF : ℚ → ℚ) (bars : List Bar) (i : ℕ)
    (hi : i < bars.length) :
    (featureTable sqrtF bars).getD i [] = featureRow sqrtF bars i := by
  rw [featureTable_eq]
  rw [List.getD_eq_getElem?_getD, List.getElem?_map, List.getElem?_range hi]
  rfl

/-- C6 amended: for a bar series longer than the warm-up `W = 199` (the
first index at which the 200-bar moving average is defined — the spec's
"undefined for the first `W` bars") in which every feature of every row
from index 199 on is defined, `add_all_features` returns exactly
`N − 199` rows: the warm-up rows are always dropped (the 200-bar SMA is
NaN there), and no further row is dropped.  Without the definedness
hypothesis `dropna` also removes any later row containing NaN (e.g.
`bb_position` on a flat 20-bar close window), which is what the
counterexample exercises. -/
theorem addAllFeatures_row_count (sqrtF : ℚ → ℚ) (bars : List Bar)
    (hN : 199 < bars.length)
    (hdef : ∀ i, i < bars.length → 199 ≤ i →
      ((featureTable sqrtF bars).getD i []).all Option.isSome = true) :
    (addAllFeatures sqrtF bars).length = bars.length - 199 := by
  unfold addAllFeatures dropNaRows
  rw [List.length_filterMap_eq_countP]
  have hcnt :
      (featureTable sqrtF bars).countP (fun r =>
        ((if r.all Option.isSome then some r.reduceOption else none) :
          Option (List ℚ)).isSome) =
      (featureTable sqrtF bars).countP (fun r => r.all Option.isSome) := by
    apply List.countP_congr
    intro r _
    by_cases hr : r.all Option.isSome <;> simp [hr]
  rw [hcnt]
  rw [featureTable_eq]
  rw [List.countP_map]
  conv_lhs => rw [show bars.length = 199 + (bars.length - 199) by omega,
    List.range_add, List.countP_append]
  have h1 : (List.range 199).countP
      ((fun r => r.all Option.isSome) ∘ featureRow sqrtF bars) = 0 := by
    apply List.countP_eq_zero.mpr
    intro i hi
    have := featureRow_not_all_some sqrtF bars i (List.mem_range.mp hi)
    simp [Function.comp, this]
  have h2 : ((List.range (bars.length - 199)).map (fun x => 199 + x)).countP
      ((fun r => r.all Option.isSome) ∘ featureRow sqrtF bars) =
      bars.length - 199 := by
    rw [List.countP_map]
    have hall : ∀ x ∈ List.range (bars.length - 199),
        (((fun r => r.all Option.isSome) ∘ featureRow sqrtF bars) ∘
          (fun x => 199 + x)) x := by
      intro x hx
      have hx2 : x < bars.length - 199 := List.mem_range.mp hx
      have := hdef (199 + x) (by omega) (by omega)
      rw [featureTable_getD sqrtF bars (199 + x) (by omega)] at this
      simpa [Function.comp] using this
    rw [List.countP_eq_length.mpr hall, List.length_range]
  rw [h1, h2]
  omega

end FeatureEng

namespace FeatureEng

/-- A 210-bar series with every bar identical — a legal OHLCV history on
which every 20-bar close window is flat. -/
def constBars : List Bar := List.replicate 210 ⟨2, 2, 2, 2, 1⟩

/-- A 200-bar series: flat for 180 bars, then alternating closes, with
`high = close + 1`, `low = close − 1` and unit volume — long enough to pass
the 200-bar warm-up with every post-warm-up feature defined. -/
def rampBars : List Bar := (List.range 200).map (fun i =>
  Bar.mk (if i < 180 then 2 else if i % 2 = 0 then 2 else 3)
    ((if i < 180 then 2 else if i % 2 = 0 then 2 else 3) + 1)
    ((if i < 180 then 2 else if i % 2 = 0 then 2 else 3) - 1)
    (if i < 180 then 2 else if i % 2 = 0 then 2 else 3) 1)

set_option maxRecDepth 1000000 in
set_option maxHeartbeats 12000000 in
/-- C6 counterexample: a 210-bar constant series — longer than the warm-up
window, whatever reading of `W` (199 or 200) is taken — yields an empty
feature table: `dropna` removes not only the warm-up rows but every row,
because `bb_position = (close − lower) / (upper − lower)` is the NumPy
`0/0` NaN on each flat 20-bar window.  So the output does not have
`N − W` rows.  (`sqrt` is instantiated with a function agreeing with the
real square root at the only relevant point, `sqrt 0 = 0`.) -/
theorem addAllFeatures_not_length_minus_warmup :
    constBars.length = 210 ∧
    addAllFeatures (fun q => q) constBars = [] ∧
    (addAllFeatures (fun q => q) constBars).length ≠ 210 - 199 ∧
    (addAllFeatures (fun q => q) constBars).length ≠ 210 - 200 := by
  have h : addAllFeatures (fun q => q) constBars = [] := by
    with_unfolding_all decide
  refine ⟨by decide, h, ?_, ?_⟩ <;> rw [h] <;> decide

set_option maxRecDepth 1000000 in
set_option maxHeartbeats 12000000 in
/-- Witness for C6's amended theorem at a concrete 200-bar series whose
post-warm-up rows are all defined: exactly `200 − 199 = 1` row remains. -/
theorem addAllFeatures_row_count_witness :
    (addAllFeatures (fun q => q) rampBars).length = rampBars.length - 199 :=
  addAllFeatures_row_count (fun q => q) rampBars
    (by with_unfolding_all decide) (by with_unfolding_all decide)

set_option maxRecDepth 1000000 in
set_option maxHeartbeats 12000000 in
/-- Witness for C3 at concrete series: appending a bar after the first 200
leaves the feature rows derived from those bars unchanged. -/
theorem featureEngine_no_future_dependence_witness :
    (featureTable (fun q => q) rampBars).take 200 =
        (featureTable (fun q => q) (rampBars ++ [Bar.mk 1 2 0 1 5])).take 200 ∧
    (addAllFeatures (fun q => q) rampBars).take
        (((featureTable (fun q => q) rampBars).take 200).countP
          (fun r => r.all Option.isSome)) =
      (addAllFeatures (fun q => q) (rampBars ++ [Bar.mk 1 2 0 1 5])).take
        (((featureTable (fun q => q) (rampBars ++ [Bar.mk 1 2 0 1 5])).take 200).countP
          (fun r => r.all Option.isSome)) :=
  featureEngine_no_future_dependence (fun q => q) rampBars
    (rampBars ++ [Bar.mk 1 2 0 1 5]) 200 (by with_unfolding_all decide)

end FeatureEng
